import Mathlib

/-!
Verification of the resumable grid-scan engine in `fetch_city_panoramas.py`.

Shallow embedding conventions:
* Latitude/longitude values are modelled as exact rationals `ℚ`.  The canonical
  coordinate key built on both sides of the code is the f-string `f"{lat},{lng}"`
  applied to the very same pair of float values, and Python's float `repr` is
  injective, so the key is modelled by the pair itself (`Key := ℚ × ℚ`).
* File names are modelled as `List Char` (`Str`) so that the string operations
  of the source — `startswith`, `endswith`, `split`, `isdigit`, `int(...)`,
  f-string concatenation — are modelled by the corresponding list operations.
* A directory is an association list from file name to parsed file content, in
  `os.listdir` order; an unparseable file (JSONDecodeError / not a dict) is the
  content `FileContent.bad`.
* JSON objects are association lists with Python `dict` update semantics
  (replace in place when the key exists, append otherwise).
-/

namespace PanoScan

abbrev Str := List Char

/-- The literal `".json"` used throughout `fetch_city_panoramas.py`. -/
def jsonExt : Str := ['.', 'j', 's', 'o', 'n']

/-! ### Association lists with Python `dict` semantics -/

/-- `m[k] = v` on a Python dict rendered as an association list: replace the
value at the first occurrence of `k`, else append at the end. -/
def alUpdate {κ α : Type} [DecidableEq κ] : List (κ × α) → κ → α → List (κ × α)
  | [], k, v => [(k, v)]
  | (k', v') :: rest, k, v =>
    if k' = k then (k, v) :: rest else (k', v') :: alUpdate rest k v

/-- `m.get(k)` on a Python dict rendered as an association list. -/
def alGet {κ α : Type} [DecidableEq κ] : List (κ × α) → κ → Option α
  | [], _ => none
  | (k', v') :: rest, k => if k' = k then some v' else alGet rest k

/-! ### Decimal rendering and parsing of numeric shard suffixes

`save_coord` builds the file name `f"{file_prefix}-{new_suffix}.json"` and
`file_sort_key` recovers the suffix with `int(parts[-1])` after an `isdigit`
check.  `renderNat`/`parseNat` model `str(n)`/`int(s)` on decimal digits. -/

/-- The decimal digit character of `d % 10`-style values, `str(d)` for `d < 10`. -/
def digitChar : Nat → Char
  | 0 => '0' | 1 => '1' | 2 => '2' | 3 => '3' | 4 => '4'
  | 5 => '5' | 6 => '6' | 7 => '7' | 8 => '8' | _ => '9'

/-- Fuel-driven decimal rendering; `renderNat` supplies enough fuel. -/
def renderNatAux : Nat → Nat → Str
  | 0, _ => []
  | fuel + 1, n =>
    if n < 10 then [digitChar n]
    else renderNatAux fuel (n / 10) ++ [digitChar (n % 10)]

/-- `str(n)` for a natural number. -/
def renderNat (n : Nat) : Str := renderNatAux (n + 1) n

/-- `int(s)` on a digit string (well-defined on outputs of `renderNat`). -/
def parseNatAux (acc : Nat) : Str → Nat
  | [] => acc
  | c :: cs => parseNatAux (acc * 10 + (c.toNat - 48)) cs

/-- `int(s)` on a digit string. -/
def parseNat (s : Str) : Nat := parseNatAux 0 s

/-- Python `s.isdigit()`: nonempty and all digit characters. -/
def isdigitStr (s : Str) : Bool := !s.isEmpty && s.all Char.isDigit

/-! ### Python `str.split` on a single separator character -/

/-- Python `s.split(c)` for a one-character separator: always returns a
nonempty list of chunks; `"".split(c) == [""]`. -/
def splitOnChar (c : Char) : Str → List Str
  | [] => [[]]
  | x :: xs =>
    match splitOnChar c xs with
    | [] => [[]]
    | h :: t => if x = c then [] :: h :: t else (x :: h) :: t

/-! ### Shard file names

`save_coord` writes `f"{file_prefix}.json"` for the unsuffixed shard and
`f"{file_prefix}-{n}.json"` for suffixed shards; `is_saved_across_files` and
`save_coord` both select shard files by
`f.startswith(file_prefix) and f.endswith(".json")`. -/

/-- The unsuffixed shard file name `file_prefix + ".json"`. -/
def mainName (pfx : Str) : Str := pfx ++ jsonExt

/-- The suffixed shard file name `f"{file_prefix}-{n}.json"`. -/
def partName (pfx : Str) (n : Nat) : Str := pfx ++ '-' :: (renderNat n ++ jsonExt)

/-- `f.startswith(file_prefix) and f.endswith(".json")`. -/
def matchesShardPattern (pfx fname : Str) : Bool :=
  pfx.isPrefixOf fname && jsonExt.isSuffixOf fname

/-! ### `file_sort_key` and the numeric-suffix computation of `save_coord` -/

/-- The sort key of `save_coord`: `0` for `base_name.json`, the numeric suffix
for `base_name-<number>.json`, `999999` for anything that does not parse
(`parts` of the source, `fname.split(".")[0].split("-")`, is inlined). -/
def file_sort_key (pfx fname : Str) : Nat :=
  if fname = mainName pfx then 0
  else if 1 < (splitOnChar '-' ((splitOnChar '.' fname).headD [])).length then
    if isdigitStr ((splitOnChar '-' ((splitOnChar '.' fname).headD [])).getLastD [])
    then parseNat ((splitOnChar '-' ((splitOnChar '.' fname).headD [])).getLastD [])
    else 999999
  else 999999

/-- The suffix chosen for the next shard when the last one is full: `1` after
the unsuffixed shard, the parsed numeric suffix plus one otherwise (falling
back to `1` when the name does not parse). -/
def nextSuffix (pfx last_file : Str) : Nat :=
  if last_file = mainName pfx then 1
  else if 1 < (splitOnChar '-' ((splitOnChar '.' last_file).headD [])).length then
    if isdigitStr ((splitOnChar '-' ((splitOnChar '.' last_file).headD [])).getLastD [])
    then parseNat ((splitOnChar '-' ((splitOnChar '.' last_file).headD [])).getLastD []) + 1
    else 1
  else 1

/-! ### Stable sort by key (`existing_files.sort(key=file_sort_key)`)

Python's `list.sort` is stable; a stable insertion sort by a `Nat` key models
it: an element is inserted after all elements of equal key. -/

/-- Insert an element into a key-sorted list, before equal-key elements
coming from later list positions (giving Python's stable order, since the
sort below inserts from the back of the list forward). -/
def insortByKey (f : Str → Nat) (x : Str) : List Str → List Str
  | [] => [x]
  | y :: ys => if f x ≤ f y then x :: y :: ys else y :: insortByKey f x ys

/-- Stable sort of a file-name list by a `Nat` key. -/
def sortByKey (f : Str → Nat) : List Str → List Str
  | [] => []
  | x :: xs => insortByKey f x (sortByKey f xs)

/-! ### The Shard Store (`is_saved_across_files` / `save_coord`)

A coordinate key is the f-string `f"{lat},{lng}"` computed identically on the
lookup side and on the write side from the same float pair, hence modelled by
the pair itself. -/

/-- Canonical coordinate key: models `f"{lat},{lng}"` (injective on pairs). -/
abbrev Key := ℚ × ℚ

/-- The record value stored under a coordinate key by `save_coord`. -/
structure Record where
  latitude : ℚ
  longitude : ℚ
  pano_id : String
  address : String
  date : Option String
deriving DecidableEq

/-- A parsed shard file: a JSON object from key to record. -/
abbrev ShardMap := List (Key × Record)

/-- Parsed content of one file: a well-formed mapping, or a file that fails
`json.load` / is not a dict (`FileContent.bad`). -/
inductive FileContent where
  | good : ShardMap → FileContent
  | bad : FileContent
deriving DecidableEq

/-- A directory: file names with parsed contents, in `os.listdir` order. -/
abbrev Dir := List (Str × FileContent)

/-- Opening a file for reading: the first entry with this name. -/
def dirLookup : Dir → Str → Option FileContent
  | [], _ => none
  | (n, c) :: rest, nm => if n = nm then some c else dirLookup rest nm

/-- `open(nm, "w")` + `json.dump`: replace the file if present, create it
(at the end of the listing) otherwise. -/
def dirWrite : Dir → Str → FileContent → Dir
  | [], nm, c => [(nm, c)]
  | (n, c0) :: rest, nm, c =>
    if n = nm then (nm, c) :: rest else (n, c0) :: dirWrite rest nm c

/-- Does one directory entry witness the saved key: the file name matches the
shard pattern and its mapping (when parseable) holds the key?  An unparseable
file is skipped (`except json.JSONDecodeError: ... Skipping`). -/
def shardHasKey (pfx : Str) (k : Key) (p : Str × FileContent) : Bool :=
  matchesShardPattern pfx p.1 &&
    match p.2 with
    | .good m => (alGet m k).isSome
    | .bad => false

/-- `is_saved_across_files(output_dir, base_name, lat, lng)`. -/
def is_saved_across_files (d : Dir) (base_name : Str) (k : Key) : Bool :=
  d.any (shardHasKey base_name k)

/-- In how many shard files of the region does the key occur? -/
def shardCount (d : Dir) (pfx : Str) (k : Key) : Nat :=
  (d.filter (shardHasKey pfx k)).length

/-- The `existing_files` collection of `save_coord`: files of the directory
matching `f.startswith(file_prefix) and f.endswith(".json")`. -/
def matchingFiles (d : Dir) (pfx : Str) : List Str :=
  (d.filter fun p => matchesShardPattern pfx p.1).map Prod.fst

/-- Loading `existing_data` from a shard file: parse failure, a non-dict
value or a missing file all fall back to the empty mapping. -/
def readShard (d : Dir) (nm : Str) : ShardMap :=
  match dirLookup d nm with
  | some (.good m) => m
  | _ => []

/-- Result of `save_coord`: the updated directory and the file written. -/
structure SaveResult where
  dir : Dir
  file : Str
deriving DecidableEq

/-- `existing_files` after `existing_files.sort(key=file_sort_key)`. -/
def sortedShardFiles (d : Dir) (pfx : Str) : List Str :=
  sortByKey (file_sort_key pfx) (matchingFiles d pfx)

/-- `save_coord(base_name, lat, lng, pano_id, label, date, file_limit)`.
The directory part of `base_name` is the modelled directory `d`; `file_prefix`
is its basename.  Faithful to the source: collect matching files, stable-sort
by `file_sort_key`; if none exist write `base_name.json`; otherwise load
`existing_files[-1]` and, when it already holds at least `file_limit`
entries, roll over to the empty `f"{file_prefix}-{new_suffix}.json"`; finally
insert the record and rewrite the chosen file in full. -/
def save_coord (d : Dir) (pfx : Str) (k : Key) (rec : Record) (file_limit : Nat) :
    SaveResult :=
  if sortedShardFiles d pfx = [] then
    ⟨dirWrite d (mainName pfx) (.good (alUpdate [] k rec)), mainName pfx⟩
  else if file_limit ≤ (readShard d ((sortedShardFiles d pfx).getLastD [])).length then
    ⟨dirWrite d (partName pfx (nextSuffix pfx ((sortedShardFiles d pfx).getLastD [])))
        (.good (alUpdate [] k rec)),
      partName pfx (nextSuffix pfx ((sortedShardFiles d pfx).getLastD []))⟩
  else
    ⟨dirWrite d ((sortedShardFiles d pfx).getLastD [])
        (.good (alUpdate (readShard d ((sortedShardFiles d pfx).getLastD [])) k rec)),
      (sortedShardFiles d pfx).getLastD []⟩

/-- Run `save_coord` over a list of key/record pairs in order. -/
def insertAll (d : Dir) (pfx : Str) (kvs : List (Key × Record)) (limit : Nat) : Dir :=
  kvs.foldl (fun d' kr => (save_coord d' pfx kr.1 kr.2 limit).dir) d

/-! ### The Progress Store (`save_progress` / `load_progress`) -/

/-- The shared progress file: missing, unparseable, or a parsed mapping from
region name to the last saved coordinate. -/
inductive ProgressFile where
  | missing : ProgressFile
  | bad : ProgressFile
  | good : List (String × Key) → ProgressFile
deriving DecidableEq

/-- Reading the progress mapping: a missing file or a `json.JSONDecodeError`
is treated as the empty mapping (`Starting fresh`), not as an error. -/
def parseProgress : ProgressFile → List (String × Key)
  | .good m => m
  | _ => []

/-- `save_progress(city_name, lat, lng)` under the file lock: read the full
mapping, update only this region's entry, rewrite the whole file. -/
def save_progress (pf : ProgressFile) (city_name : String) (lat lng : ℚ) :
    ProgressFile :=
  .good (alUpdate (parseProgress pf) city_name (lat, lng))

/-- `load_progress(city_name)` under the file lock: `(None, None)` when the
file is missing or unparseable or has no entry for the region. -/
def load_progress (pf : ProgressFile) (city_name : String) : Option ℚ × Option ℚ :=
  match pf with
  | .good m =>
    match alGet m city_name with
    | some c => (some c.1, some c.2)
    | none => (none, none)
  | _ => (none, none)

/-! ### The Metadata Fetcher (`fetch_pano_metadata`) and the request counter -/

/-- The parsed JSON body of a metadata response (`response.json()`). -/
structure ApiBody where
  status : Option String
  pano_id : Option String
  location : Option String
  date : Option String
deriving DecidableEq

/-- Outcome of `session.get`: an HTTP response (any status code, with its
parsed body) or a transport error (`requests.exceptions.RequestException`,
raised once the adapter's retries are exhausted). -/
inductive FetchOutcome where
  | transportError : FetchOutcome
  | response : Nat → ApiBody → FetchOutcome
deriving DecidableEq

/-- `update_total_request_count()`: read-modify-write of the counter file,
`data.get("total-request", 0) + 1` (no lock is taken in the source). -/
def update_total_request_count (counter : Nat) : Nat := counter + 1

/-- `fetch_pano_metadata(lat, lng)` threaded over the persisted request
counter.  `update_total_request_count` runs only after `session.get` returns
a response (a transport error skips it); a non-200 status or a body status
other than `"OK"` falls through to `return None, None, None`. -/
def fetch_pano_metadata (counter : Nat) (o : FetchOutcome) :
    (Option String × Option String × Option String) × Nat :=
  match o with
  | .transportError => ((none, none, none), counter)
  | .response code body =>
    if code = 200 then
      if body.status = some "OK" then
        ((body.pano_id, body.location, some (body.date.getD "Unknown")),
          update_total_request_count counter)
      else ((none, none, none), update_total_request_count counter)
    else ((none, none, none), update_total_request_count counter)

/-- An ordinary API-level failure in the sense of the spec: a non-2xx HTTP
status, or a 2xx response whose body status differs from `"OK"`; transport
errors are the remaining failure case. -/
def apiFailure : FetchOutcome → Prop
  | .transportError => True
  | .response code body => ¬(200 ≤ code ∧ code ≤ 299) ∨ body.status ≠ some "OK"

/-! ### The Scan Engine (inner-loop body of `fetch_city_panoramas`) -/

/-- Mutable state touched by one sweep step: the region's output directory,
the shared progress file, the persisted request counter, and — as a ghost
trace — the coordinates for which an external request was attempted. -/
structure SweepState where
  dir : Dir
  progress : ProgressFile
  counter : Nat
  calls : List Key
deriving DecidableEq

/-- The record written by the sweep:
`save_coord(base_name, lat, lng, pano_id, "Unknown", date)`. -/
def mkRecord (c : Key) (pid : String) (date : Option String) : Record :=
  { latitude := c.1, longitude := c.2, pano_id := pid, address := "Unknown",
    date := date }

/-- One iteration of the inner loop of `fetch_city_panoramas` at coordinate
`c` (the grid advance is separate): when the coordinate is already saved the
body does nothing at all; otherwise the metadata is fetched (`env` supplies
the network's answer for each coordinate), a record is saved when a truthy
`pano_id` came back (`if pano_id:` — `None` and `""` are falsy), and then —
only on this branch — the progress is saved. -/
def processCoord (env : Key → FetchOutcome) (city_name : String) (pfx : Str)
    (limit : Nat) (s : SweepState) (c : Key) : SweepState :=
  if is_saved_across_files s.dir pfx c then s
  else
    { dir :=
        match (fetch_pano_metadata s.counter (env c)).1.1 with
        | some pid =>
          if pid = "" then s.dir
          else
            (save_coord s.dir pfx c
              (mkRecord c pid (fetch_pano_metadata s.counter (env c)).1.2.2) limit).dir
        | none => s.dir,
      progress := save_progress s.progress city_name c.1 c.2,
      counter := (fetch_pano_metadata s.counter (env c)).2,
      calls := s.calls ++ [c] }

/-- Lines 222–224 of the source: `current_lat = last_lat if last_lat else
min_lat` and `current_lng = last_lng if last_lng else min_lng`.  Python
truthiness: both `None` and `0.0` select the region minimum. -/
def resumeStart (pf : ProgressFile) (city_name : String) (min_lat min_lng : ℚ) :
    ℚ × ℚ :=
  (match (load_progress pf city_name).1 with
   | some x => if x = 0 then min_lat else x
   | none => min_lat,
   match (load_progress pf city_name).2 with
   | some y => if y = 0 then min_lng else y
   | none => min_lng)

/-! ### The Region Resolver (`get_city_coordinates`) -/

/-- A nested sub-region entry of the catalog; every field is optional and
falls back to the top-level value. -/
structure SubRegion where
  min_latitude : Option ℚ
  min_longitude : Option ℚ
  max_latitude : Option ℚ
  max_longitude : Option ℚ
deriving DecidableEq

/-- `{}`: a sub-region overriding nothing (the default of
`city.get("regions", [{}])`). -/
def emptySubRegion : SubRegion := ⟨none, none, none, none⟩

/-- Python `str.lower()` (ASCII case folding suffices for catalog names). -/
def toLowerStr (s : Str) : Str := s.map Char.toLower

/-- One catalog entry of `city-dashboard.json` (names as character lists so
that the case-insensitive comparison stays executable). -/
structure CityEntry where
  city : Str
  min_latitude : ℚ
  min_longitude : ℚ
  max_latitude : ℚ
  max_longitude : ℚ
  regions : Option (List SubRegion)
deriving DecidableEq

/-- The bounds an entry resolves to: the first sub-region entry's fields
override the top-level bounds field by field. -/
def entryBounds (c : CityEntry) : ℚ × ℚ × ℚ × ℚ :=
  (((c.regions.getD [emptySubRegion]).headD emptySubRegion).min_latitude.getD c.min_latitude,
   ((c.regions.getD [emptySubRegion]).headD emptySubRegion).min_longitude.getD c.min_longitude,
   ((c.regions.getD [emptySubRegion]).headD emptySubRegion).max_latitude.getD c.max_latitude,
   ((c.regions.getD [emptySubRegion]).headD emptySubRegion).max_longitude.getD c.max_longitude)

/-- The `ValueError` message of the source for a missing region. -/
def cityNotFound (city_name : Str) : Str :=
  "City ".toList ++ city_name ++ " not found in city-dashboard.json".toList

/-- `get_city_coordinates(city_name)`: first case-insensitive match wins;
`city.get("regions", [{}])[0]` raises `IndexError` on an explicitly empty
sub-region list; falling through the loop raises `ValueError`. -/
def get_city_coordinates : List CityEntry → Str → Except Str (ℚ × ℚ × ℚ × ℚ)
  | [], city_name => .error (cityNotFound city_name)
  | c :: rest, city_name =>
    if toLowerStr c.city = toLowerStr city_name then
      match c.regions.getD [emptySubRegion] with
      | [] => .error "list index out of range".toList
      | r :: _ =>
        .ok (r.min_latitude.getD c.min_latitude, r.min_longitude.getD c.min_longitude,
          r.max_latitude.getD c.max_latitude, r.max_longitude.getD c.max_longitude)
    else get_city_coordinates rest city_name

/-! ### Concrete sample data used by closed instances -/

/-- A concrete file prefix, `"city_panoramic_coords"`-like but short. -/
def samplePfx : Str := ['c', 'i', 't', 'y']

/-- A concrete stored record. -/
def sampleRec : Record := ⟨0, 0, "pano0", "Unknown", some "2020-01"⟩

/-- A directory already holding the coordinate `(0, 0)` in its main shard. -/
def sampleDirSaved : Dir := [(mainName samplePfx, .good [((0, 0), sampleRec)])]

/-- Sweep state over `sampleDirSaved` with no checkpoint yet. -/
def sampleState : SweepState := ⟨sampleDirSaved, .missing, 0, []⟩

/-- Sweep state over an empty region directory with no checkpoint. -/
def freshState : SweepState := ⟨[], .missing, 0, []⟩

/-- A network in which every request raises a transport error. -/
def offlineEnv : Key → FetchOutcome := fun _ => .transportError

/-- A network in which every request finds a panorama. -/
def okEnv : Key → FetchOutcome :=
  fun _ => .response 200 ⟨some "OK", some "pano0", some "loc", some "2020-01"⟩

/-- A catalog entry with an explicitly empty sub-region list. -/
def emptyRegionsEntry : CityEntry := ⟨"x".toList, 0, 0, 1, 1, some []⟩

/-- A small concrete catalog: one plain entry, one with an override. -/
def sampleCatalog : List CityEntry :=
  [⟨"Foo".toList, 1, 2, 3, 4, none⟩,
   ⟨"Bar".toList, 5, 6, 7, 8, some [⟨some 9, none, none, none⟩]⟩]

/-- A file prefix containing a dot, as produced by a dotted city name
(`f"{city}_panoramic_coords"` with e.g. `city = "st.x"`). -/
def dotPfx : Str := "st.x".toList

/-! ## Theorems -/

theorem alGet_alUpdate_self {κ α : Type} [DecidableEq κ]
    (m : List (κ × α)) (k : κ) (v : α) : alGet (alUpdate m k v) k = some v := by
  induction m with
  | nil => simp [alUpdate, alGet]
  | cons p rest ih =>
    by_cases h : p.1 = k
    · simp [alUpdate, alGet, h]
    · simp [alUpdate, alGet, h, ih]

theorem alGet_alUpdate_ne {κ α : Type} [DecidableEq κ]
    (m : List (κ × α)) (k k' : κ) (v : α) (h : k' ≠ k) :
    alGet (alUpdate m k v) k' = alGet m k' := by
  induction m with
  | nil => simp [alUpdate, alGet, Ne.symm h]
  | cons p rest ih =>
    by_cases hk : p.1 = k
    · subst hk
      simp only [alUpdate, if_pos rfl, alGet]
      rw [if_neg (fun hh => h hh.symm), if_neg (fun hh => h (hh.symm.trans rfl))]
    · simp [alUpdate, alGet, hk, ih]

/-- When the key is fresh, a Python dict update appends the binding. -/
theorem alUpdate_of_not_mem {κ α : Type} [DecidableEq κ]
    (m : List (κ × α)) (k : κ) (v : α) (h : k ∉ m.map Prod.fst) :
    alUpdate m k v = m ++ [(k, v)] := by
  induction m with
  | nil => rfl
  | cons p rest ih =>
    simp only [List.map_cons, List.mem_cons] at h
    push_neg at h
    simp [alUpdate, Ne.symm h.1, ih h.2]

theorem digitChar_isDigit (d : Nat) : (digitChar d).isDigit = true := by
  unfold digitChar
  split <;> decide

theorem digitChar_toNat (d : Nat) (h : d < 10) : (digitChar d).toNat = 48 + d := by
  interval_cases d <;> decide

theorem renderNatAux_ne_nil (fuel n : Nat) : renderNatAux (fuel + 1) n ≠ [] := by
  unfold renderNatAux
  split <;> simp

theorem renderNatAux_all_digits (fuel n : Nat) :
    ∀ c ∈ renderNatAux fuel n, c.isDigit = true := by
  induction fuel generalizing n with
  | zero => simp [renderNatAux]
  | succ fuel ih =>
    intro c hc
    unfold renderNatAux at hc
    split at hc
    · simp only [List.mem_singleton] at hc
      exact hc ▸ digitChar_isDigit n
    · rw [List.mem_append] at hc
      rcases hc with hc | hc
      · exact ih (n / 10) c hc
      · simp only [List.mem_singleton] at hc
        exact hc ▸ digitChar_isDigit (n % 10)

theorem renderNatAux_succ (fuel n : Nat) :
    renderNatAux (fuel + 1) n =
      if n < 10 then [digitChar n]
      else renderNatAux fuel (n / 10) ++ [digitChar (n % 10)] := rfl

theorem parseNatAux_nil (acc : Nat) : parseNatAux acc [] = acc := rfl

theorem parseNatAux_cons (acc : Nat) (c : Char) (cs : Str) :
    parseNatAux acc (c :: cs) = parseNatAux (acc * 10 + (c.toNat - 48)) cs := rfl

theorem parseNatAux_append (acc : Nat) (s t : Str) :
    parseNatAux acc (s ++ t) = parseNatAux (parseNatAux acc s) t := by
  induction s generalizing acc with
  | nil => rfl
  | cons c cs ih => exact ih _

theorem parseNatAux_renderNatAux (fuel : Nat) :
    ∀ n acc, n < 10 ^ fuel →
      parseNatAux acc (renderNatAux fuel n) =
        acc * 10 ^ (renderNatAux fuel n).length + n := by
  induction fuel with
  | zero =>
    intro n acc h
    have hn : n = 0 := by simpa [Nat.lt_one_iff] using h
    subst hn
    show acc = acc * 10 ^ ((0 : Nat)) + 0
    simp
  | succ fuel ih =>
    intro n acc h
    rw [renderNatAux_succ]
    by_cases hlt : n < 10
    · rw [if_pos hlt, parseNatAux_cons, parseNatAux_nil, digitChar_toNat n hlt]
      simp only [List.length_singleton, pow_one]
      omega
    · rw [if_neg hlt]
      push_neg at hlt
      have hdiv : n / 10 < 10 ^ fuel := by
        apply Nat.div_lt_of_lt_mul
        calc n < 10 ^ (fuel + 1) := h
        _ = 10 * 10 ^ fuel := by ring
      rw [parseNatAux_append, ih (n / 10) acc hdiv, parseNatAux_cons, parseNatAux_nil,
        digitChar_toNat (n % 10) (Nat.mod_lt n (by omega)), List.length_append,
        List.length_singleton]
      have h10 : 10 * (n / 10) + n % 10 = n := Nat.div_add_mod n 10
      have h48 : 48 + n % 10 - 48 = n % 10 := by omega
      rw [h48, pow_succ]
      calc (acc * 10 ^ (renderNatAux fuel (n / 10)).length + n / 10) * 10 + n % 10
          = acc * (10 ^ (renderNatAux fuel (n / 10)).length * 10)
            + (10 * (n / 10) + n % 10) := by ring
        _ = acc * (10 ^ (renderNatAux fuel (n / 10)).length * 10) + n := by rw [h10]

theorem parseNat_renderNat (n : Nat) : parseNat (renderNat n) = n := by
  have h : n < 10 ^ (n + 1) := by
    calc n < 10 ^ n := Nat.lt_pow_self (by omega) n
    _ ≤ 10 ^ (n + 1) := Nat.pow_le_pow_right (by omega) (by omega)
  have := parseNatAux_renderNatAux (n + 1) n 0 h
  simpa [parseNat, renderNat] using this

theorem renderNat_ne_nil (n : Nat) : renderNat n ≠ [] := renderNatAux_ne_nil n n

theorem renderNat_all_digits (n : Nat) : ∀ c ∈ renderNat n, c.isDigit = true :=
  renderNatAux_all_digits (n + 1) n

theorem renderNat_length_pos (n : Nat) : 0 < (renderNat n).length := by
  cases h : renderNat n with
  | nil => exact absurd h (renderNat_ne_nil n)
  | cons c cs => simp

theorem isdigitStr_renderNat (n : Nat) : isdigitStr (renderNat n) = true := by
  have h1 := renderNat_ne_nil n
  have h2 := renderNat_all_digits n
  simp only [isdigitStr, Bool.and_eq_true, List.all_eq_true]
  refine ⟨by simpa [List.isEmpty_iff] using h1, h2⟩

theorem not_mem_renderNat_of_not_digit (n : Nat) (c : Char) (h : c.isDigit = false) :
    c ∉ renderNat n := by
  intro hc
  have := renderNat_all_digits n c hc
  rw [h] at this
  exact absurd this (by simp)

theorem splitOnChar_cons (c x : Char) (xs : Str) :
    splitOnChar c (x :: xs) =
      match splitOnChar c xs with
      | [] => [[]]
      | h :: t => if x = c then [] :: h :: t else (x :: h) :: t := rfl

theorem splitOnChar_ne_nil (c : Char) (s : Str) : splitOnChar c s ≠ [] := by
  induction s with
  | nil => simp [splitOnChar]
  | cons x xs ih =>
    rw [splitOnChar_cons]
    cases h : splitOnChar c xs with
    | nil => simp
    | cons hh tt => by_cases hx : x = c <;> simp [hx]

theorem splitOnChar_of_not_mem (c : Char) (s : Str) (h : c ∉ s) :
    splitOnChar c s = [s] := by
  induction s with
  | nil => rfl
  | cons x xs ih =>
    simp only [List.mem_cons] at h
    push_neg at h
    rw [splitOnChar_cons, ih h.2]
    simp [Ne.symm h.1]

theorem splitOnChar_append_sep (c : Char) (a b : Str) (h : c ∉ a) :
    splitOnChar c (a ++ c :: b) = a :: splitOnChar c b := by
  induction a with
  | nil =>
    rw [List.nil_append, splitOnChar_cons]
    cases hb : splitOnChar c b with
    | nil => exact absurd hb (splitOnChar_ne_nil c b)
    | cons hh tt => simp [← hb]
  | cons x a' ih =>
    simp only [List.mem_cons] at h
    push_neg at h
    rw [List.cons_append, splitOnChar_cons, ih h.2]
    simp [Ne.symm h.1]

theorem two_le_splitOnChar_sep (c : Char) (a b : Str) :
    2 ≤ (splitOnChar c (a ++ c :: b)).length := by
  induction a with
  | nil =>
    rw [List.nil_append, splitOnChar_cons]
    cases hb : splitOnChar c b with
    | nil => exact absurd hb (splitOnChar_ne_nil c b)
    | cons hh tt => simp
  | cons x a' ih =>
    rw [List.cons_append, splitOnChar_cons]
    cases hrec : splitOnChar c (a' ++ c :: b) with
    | nil => exact absurd hrec (splitOnChar_ne_nil c _)
    | cons hh tt =>
      rw [hrec] at ih
      simp only [List.length_cons] at ih
      by_cases hx : x = c <;> simp [hx] <;> omega

theorem getLastD_of_ne_nil {α : Type} (l : List α) (h : l ≠ []) (d d' : α) :
    l.getLastD d = l.getLastD d' := by
  cases l with
  | nil => exact absurd rfl h
  | cons x xs => rw [List.getLastD_cons, List.getLastD_cons]

theorem getLastD_splitOnChar_sep (c : Char) (a b : Str) :
    (splitOnChar c (a ++ c :: b)).getLastD [] = (splitOnChar c b).getLastD [] := by
  induction a with
  | nil =>
    rw [List.nil_append, splitOnChar_cons]
    cases hb : splitOnChar c b with
    | nil => exact absurd hb (splitOnChar_ne_nil c b)
    | cons hh tt => simp [List.getLastD_cons]
  | cons x a' ih =>
    rw [List.cons_append, splitOnChar_cons]
    cases hrec : splitOnChar c (a' ++ c :: b) with
    | nil => exact absurd hrec (splitOnChar_ne_nil c _)
    | cons hh tt =>
      rw [hrec] at ih
      have htt : tt ≠ [] := by
        have := two_le_splitOnChar_sep c a' b
        rw [hrec] at this
        simp only [List.length_cons] at this
        intro hc
        subst hc
        simp at this
      show (if x = c then [] :: hh :: tt else (x :: hh) :: tt).getLastD [] =
        (splitOnChar c b).getLastD []
      by_cases hx : x = c
      · rw [if_pos hx, ← ih, List.getLastD_cons, List.getLastD_cons]
      · rw [if_neg hx, ← ih, List.getLastD_cons, List.getLastD_cons]
        exact getLastD_of_ne_nil tt htt _ _

theorem isPrefixOf_append_self (a b : Str) : a.isPrefixOf (a ++ b) = true := by
  induction a with
  | nil => simp [List.isPrefixOf]
  | cons x xs ih => simpa [List.isPrefixOf] using ih

theorem isSuffixOf_append_self (a b : Str) : b.isSuffixOf (a ++ b) = true := by
  show b.reverse.isPrefixOf (a ++ b).reverse = true
  rw [List.reverse_append]
  exact isPrefixOf_append_self _ _

theorem partName_eq_append (pfx : Str) (n : Nat) :
    partName pfx n = (pfx ++ '-' :: renderNat n) ++ jsonExt := by
  simp [partName]

theorem matches_mainName (pfx : Str) : matchesShardPattern pfx (mainName pfx) = true := by
  simp [matchesShardPattern, mainName, isPrefixOf_append_self, isSuffixOf_append_self]

theorem matches_partName (pfx : Str) (n : Nat) :
    matchesShardPattern pfx (partName pfx n) = true := by
  rw [matchesShardPattern, partName_eq_append]
  have h1 : pfx.isPrefixOf ((pfx ++ '-' :: renderNat n) ++ jsonExt) = true := by
    rw [List.append_assoc]
    exact isPrefixOf_append_self _ _
  rw [h1, isSuffixOf_append_self]
  rfl

theorem partName_ne_mainName (pfx : Str) (n : Nat) : partName pfx n ≠ mainName pfx := by
  intro h
  have := congrArg List.length h
  rw [partName_eq_append] at this
  simp only [mainName, List.length_append, List.length_cons] at this
  omega

theorem not_mem_append_cons {α : Type} (c x : α) (a b : List α)
    (ha : c ∉ a) (hx : c ≠ x) (hb : c ∉ b) : c ∉ a ++ x :: b := by
  intro h
  rcases List.mem_append.mp h with h | h
  · exact ha h
  · rcases List.mem_cons.mp h with h | h
    · exact hx h
    · exact hb h

theorem headD_splitOnDot_partName (pfx : Str) (n : Nat) (hdot : ('.' : Char) ∉ pfx) :
    (splitOnChar '.' (partName pfx n)).headD [] = pfx ++ '-' :: renderNat n := by
  have hA : ('.' : Char) ∉ pfx ++ '-' :: renderNat n :=
    not_mem_append_cons _ _ _ _ hdot (by decide)
      (not_mem_renderNat_of_not_digit n '.' (by decide))
  have hshape : partName pfx n = (pfx ++ '-' :: renderNat n) ++ '.' :: ['j', 's', 'o', 'n'] := by
    rw [partName_eq_append]
    rfl
  rw [hshape, splitOnChar_append_sep '.' _ _ hA]
  rfl

theorem lastPart_partName (pfx : Str) (n : Nat) (hdot : ('.' : Char) ∉ pfx) :
    (splitOnChar '-' ((splitOnChar '.' (partName pfx n)).headD [])).getLastD []
      = renderNat n := by
  rw [headD_splitOnDot_partName pfx n hdot, getLastD_splitOnChar_sep,
    splitOnChar_of_not_mem '-' _ (not_mem_renderNat_of_not_digit n '-' (by decide))]
  rfl

theorem lastPart_length_partName (pfx : Str) (n : Nat) (hdot : ('.' : Char) ∉ pfx) :
    1 < (splitOnChar '-' ((splitOnChar '.' (partName pfx n)).headD [])).length := by
  rw [headD_splitOnDot_partName pfx n hdot]
  have := two_le_splitOnChar_sep '-' pfx (renderNat n)
  omega

theorem file_sort_key_mainName (pfx : Str) : file_sort_key pfx (mainName pfx) = 0 := by
  rw [file_sort_key, if_pos rfl]

theorem file_sort_key_partName (pfx : Str) (n : Nat) (hdot : ('.' : Char) ∉ pfx) :
    file_sort_key pfx (partName pfx n) = n := by
  rw [file_sort_key, if_neg (partName_ne_mainName pfx n),
    if_pos (lastPart_length_partName pfx n hdot), lastPart_partName pfx n hdot,
    if_pos (isdigitStr_renderNat n), parseNat_renderNat]

theorem nextSuffix_mainName (pfx : Str) : nextSuffix pfx (mainName pfx) = 1 := by
  rw [nextSuffix, if_pos rfl]

theorem nextSuffix_partName (pfx : Str) (n : Nat) (hdot : ('.' : Char) ∉ pfx) :
    nextSuffix pfx (partName pfx n) = n + 1 := by
  rw [nextSuffix, if_neg (partName_ne_mainName pfx n),
    if_pos (lastPart_length_partName pfx n hdot), lastPart_partName pfx n hdot,
    if_pos (isdigitStr_renderNat n), parseNat_renderNat]

theorem insortByKey_perm (f : Str → Nat) (x : Str) (l : List Str) :
    List.Perm (insortByKey f x l) (x :: l) := by
  induction l with
  | nil => exact List.Perm.refl _
  | cons y ys ih =>
    rw [insortByKey]
    by_cases h : f x ≤ f y
    · rw [if_pos h]
    · rw [if_neg h]
      exact List.Perm.trans (ih.cons y) (List.Perm.swap x y ys)

theorem sortByKey_perm (f : Str → Nat) (l : List Str) : List.Perm (sortByKey f l) l := by
  induction l with
  | nil => exact List.Perm.refl _
  | cons x xs ih => exact List.Perm.trans (insortByKey_perm f x _) (ih.cons x)

theorem mem_insortByKey (f : Str → Nat) (x z : Str) (l : List Str) :
    z ∈ insortByKey f x l ↔ z = x ∨ z ∈ l := by
  rw [(insortByKey_perm f x l).mem_iff, List.mem_cons]

theorem insortByKey_pairwise (f : Str → Nat) (x : Str) (l : List Str)
    (h : l.Pairwise fun a b => f a ≤ f b) :
    (insortByKey f x l).Pairwise fun a b => f a ≤ f b := by
  induction l with
  | nil => simp [insortByKey]
  | cons y ys ih =>
    rw [insortByKey]
    rw [List.pairwise_cons] at h
    by_cases hxy : f x ≤ f y
    · rw [if_pos hxy, List.pairwise_cons]
      refine ⟨?_, List.pairwise_cons.mpr h⟩
      intro z hz
      rcases List.mem_cons.mp hz with hz | hz
      · exact hz ▸ hxy
      · exact le_trans hxy (h.1 z hz)
    · rw [if_neg hxy, List.pairwise_cons]
      refine ⟨?_, ih h.2⟩
      intro z hz
      rcases (mem_insortByKey f x z ys).mp hz with hz | hz
      · exact hz ▸ le_of_not_le hxy
      · exact h.1 z hz

theorem sortByKey_pairwise (f : Str → Nat) (l : List Str) :
    (sortByKey f l).Pairwise fun a b => f a ≤ f b := by
  induction l with
  | nil => simp [sortByKey]
  | cons x xs ih => exact insortByKey_pairwise f x _ ih

theorem dirLookup_dirWrite_self (d : Dir) (nm : Str) (c : FileContent) :
    dirLookup (dirWrite d nm c) nm = some c := by
  induction d with
  | nil => simp [dirWrite, dirLookup]
  | cons p rest ih =>
    by_cases h : p.1 = nm
    · simp [dirWrite, dirLookup, h]
    · simp [dirWrite, dirLookup, h, ih]

theorem mem_of_getLast? {α : Type} {l : List α} {a : α} (h : l.getLast? = some a) :
    a ∈ l := by
  have hx : a ∈ l.getLast? := by rw [h]; rfl
  obtain ⟨hne, heq⟩ := List.mem_getLast?_eq_getLast hx
  exact heq ▸ List.getLast_mem hne

theorem matches_of_mem_matchingFiles (d : Dir) (pfx lf : Str)
    (h : lf ∈ matchingFiles d pfx) : matchesShardPattern pfx lf = true := by
  simp only [matchingFiles, List.mem_map] at h
  obtain ⟨p, hp, rfl⟩ := h
  exact (List.mem_filter.mp hp).2

theorem getLastD_mem {α : Type} (l : List α) (d : α) (h : l ≠ []) : l.getLastD d ∈ l := by
  induction l generalizing d with
  | nil => exact absurd rfl h
  | cons x xs ih =>
    rw [List.getLastD_cons]
    cases hxs : xs with
    | nil => simp [List.getLastD]
    | cons y ys =>
      have := ih x (by simp [hxs])
      rw [hxs] at this
      exact List.mem_cons_of_mem x (hxs ▸ this)

theorem matches_of_sorted_getLast (d : Dir) (pfx : Str)
    (h : sortedShardFiles d pfx ≠ []) :
    matchesShardPattern pfx ((sortedShardFiles d pfx).getLastD []) = true := by
  have hmem : (sortedShardFiles d pfx).getLastD [] ∈ sortedShardFiles d pfx :=
    getLastD_mem _ _ h
  exact matches_of_mem_matchingFiles d pfx _
    ((sortByKey_perm (file_sort_key pfx) (matchingFiles d pfx)).mem_iff.mp hmem)

theorem is_saved_dirWrite_good (d : Dir) (pfx nm : Str) (m : ShardMap) (k : Key)
    (hmatch : matchesShardPattern pfx nm = true) (hkey : (alGet m k).isSome = true) :
    is_saved_across_files (dirWrite d nm (.good m)) pfx k = true := by
  have hhas : shardHasKey pfx k (nm, .good m) = true := by
    simp [shardHasKey, hmatch, hkey]
  induction d with
  | nil => simp [dirWrite, is_saved_across_files, List.any_cons, hhas]
  | cons p rest ih =>
    by_cases h : p.1 = nm
    · simp [dirWrite, is_saved_across_files, List.any_cons, h, hhas]
    · simp only [is_saved_across_files] at ih
      simp [dirWrite, is_saved_across_files, List.any_cons, h, ih]

theorem shardCount_cons (p : Str × FileContent) (d : Dir) (pfx : Str) (k : Key) :
    shardCount (p :: d) pfx k =
      (if shardHasKey pfx k p then 1 else 0) + shardCount d pfx k := by
  by_cases h : shardHasKey pfx k p <;> simp [shardCount, List.filter_cons, h] <;> omega

theorem shardCount_dirWrite_le (d : Dir) (nm : Str) (c' : FileContent) (pfx : Str)
    (k : Key) :
    shardCount (dirWrite d nm c') pfx k ≤
      shardCount d pfx k + (if shardHasKey pfx k (nm, c') then 1 else 0) := by
  induction d with
  | nil =>
    rw [dirWrite, shardCount_cons]
    simp only [shardCount, List.filter_nil, List.length_nil]
    omega
  | cons p rest ih =>
    obtain ⟨n, c0⟩ := p
    rw [dirWrite]
    by_cases h : n = nm
    · subst h
      rw [if_pos rfl, shardCount_cons, shardCount_cons]
      have ha : (if shardHasKey pfx k (n, c0) then 1 else 0) ≤ 1 := by split <;> omega
      omega
    · rw [if_neg h, shardCount_cons, shardCount_cons]
      omega

theorem shardCount_dirWrite_of_lookup (d : Dir) (nm : Str) (c' fc0 : FileContent)
    (pfx : Str) (k : Key) (hlk : dirLookup d nm = some fc0) :
    shardCount (dirWrite d nm c') pfx k + (if shardHasKey pfx k (nm, fc0) then 1 else 0)
      = shardCount d pfx k + (if shardHasKey pfx k (nm, c') then 1 else 0) := by
  induction d with
  | nil => simp [dirLookup] at hlk
  | cons p rest ih =>
    obtain ⟨n, c0⟩ := p
    rw [dirLookup] at hlk
    rw [dirWrite]
    by_cases h : n = nm
    · subst h
      rw [if_pos rfl] at hlk
      have hc0 : c0 = fc0 := Option.some.inj hlk
      subst hc0
      rw [if_pos rfl, shardCount_cons, shardCount_cons]
      omega
    · rw [if_neg h] at hlk
      rw [if_neg h, shardCount_cons, shardCount_cons]
      have := ih hlk
      omega

theorem shardCount_eq_zero_of_not_saved (d : Dir) (pfx : Str) (k : Key)
    (h : is_saved_across_files d pfx k = false) : shardCount d pfx k = 0 := by
  induction d with
  | nil => rfl
  | cons p rest ih =>
    rw [is_saved_across_files, List.any_cons] at h
    rw [Bool.or_eq_false_iff] at h
    rw [shardCount_cons, h.1, ih h.2]
    simp

theorem shardHasKey_update_ne (pfx nm : Str) (k k' : Key) (rec : Record) (m : ShardMap)
    (h : k' ≠ k) :
    shardHasKey pfx k' (nm, .good (alUpdate m k rec)) =
      shardHasKey pfx k' (nm, .good m) := by
  simp [shardHasKey, alGet_alUpdate_ne m k k' rec h]

theorem shardHasKey_singleton_ne (pfx nm : Str) (k k' : Key) (rec : Record)
    (h : k' ≠ k) :
    shardHasKey pfx k' (nm, .good (alUpdate [] k rec)) = false := by
  have : alGet (alUpdate ([] : ShardMap) k rec) k' = none := by
    rw [alGet_alUpdate_ne [] k k' rec h]
    rfl
  simp [shardHasKey, this]

/-- `save_coord` keeps every key in at most one shard of the region, provided
the inserted key is in none (which is what the sweep's dedup check ensures). -/
theorem save_coord_at_most_one (d : Dir) (pfx : Str) (k : Key) (rec : Record)
    (limit : Nat) (h0 : is_saved_across_files d pfx k = false)
    (h1 : ∀ k'', shardCount d pfx k'' ≤ 1) :
    ∀ k', shardCount (save_coord d pfx k rec limit).dir pfx k' ≤ 1 := by
  intro k'
  have hz : shardCount d pfx k = 0 := shardCount_eq_zero_of_not_saved d pfx k h0
  have hite : ∀ (nm : Str) (c : FileContent),
      (if shardHasKey pfx k' (nm, c) then 1 else 0) ≤ 1 := by
    intro nm c
    split <;> omega
  rw [save_coord]
  by_cases hemp : sortedShardFiles d pfx = []
  · rw [if_pos hemp]
    dsimp only
    by_cases hkk : k' = k
    · subst hkk
      have := shardCount_dirWrite_le d (mainName pfx) (.good (alUpdate [] k' rec)) pfx k'
      have := hite (mainName pfx) (.good (alUpdate [] k' rec))
      omega
    · have hb := shardCount_dirWrite_le d (mainName pfx) (.good (alUpdate [] k rec)) pfx k'
      rw [shardHasKey_singleton_ne pfx (mainName pfx) k k' rec hkk] at hb
      simp only [Bool.false_eq_true, if_false] at hb
      have := h1 k'
      omega
  · rw [if_neg hemp]
    by_cases hfull : limit ≤ (readShard d ((sortedShardFiles d pfx).getLastD [])).length
    · rw [if_pos hfull]
      dsimp only
      by_cases hkk : k' = k
      · subst hkk
        have := shardCount_dirWrite_le d
          (partName pfx (nextSuffix pfx ((sortedShardFiles d pfx).getLastD [])))
          (.good (alUpdate [] k' rec)) pfx k'
        have := hite (partName pfx (nextSuffix pfx ((sortedShardFiles d pfx).getLastD [])))
          (.good (alUpdate [] k' rec))
        omega
      · have hb := shardCount_dirWrite_le d
          (partName pfx (nextSuffix pfx ((sortedShardFiles d pfx).getLastD [])))
          (.good (alUpdate [] k rec)) pfx k'
        rw [shardHasKey_singleton_ne pfx _ k k' rec hkk] at hb
        simp only [Bool.false_eq_true, if_false] at hb
        have := h1 k'
        omega
    · rw [if_neg hfull]
      dsimp only
      by_cases hkk : k' = k
      · subst hkk
        have := shardCount_dirWrite_le d ((sortedShardFiles d pfx).getLastD [])
          (.good (alUpdate (readShard d ((sortedShardFiles d pfx).getLastD [])) k' rec))
          pfx k'
        have := hite ((sortedShardFiles d pfx).getLastD [])
          (.good (alUpdate (readShard d ((sortedShardFiles d pfx).getLastD [])) k' rec))
        omega
      · cases hlk : dirLookup d ((sortedShardFiles d pfx).getLastD []) with
        | none =>
          have hread : readShard d ((sortedShardFiles d pfx).getLastD []) = [] := by
            rw [readShard, hlk]
          rw [hread]
          have hb := shardCount_dirWrite_le d ((sortedShardFiles d pfx).getLastD [])
            (.good (alUpdate [] k rec)) pfx k'
          rw [shardHasKey_singleton_ne pfx _ k k' rec hkk] at hb
          simp only [Bool.false_eq_true, if_false] at hb
          have := h1 k'
          omega
        | some fc0 =>
          cases fc0 with
          | bad =>
            have hread : readShard d ((sortedShardFiles d pfx).getLastD []) = [] := by
              rw [readShard, hlk]
            rw [hread]
            have hb := shardCount_dirWrite_le d ((sortedShardFiles d pfx).getLastD [])
              (.good (alUpdate [] k rec)) pfx k'
            rw [shardHasKey_singleton_ne pfx _ k k' rec hkk] at hb
            simp only [Bool.false_eq_true, if_false] at hb
            have := h1 k'
            omega
          | good m =>
            have hread : readShard d ((sortedShardFiles d pfx).getLastD []) = m := by
              rw [readShard, hlk]
            rw [hread]
            have heq := shardCount_dirWrite_of_lookup d
              ((sortedShardFiles d pfx).getLastD [])
              (.good (alUpdate m k rec)) (.good m) pfx k' hlk
            rw [shardHasKey_update_ne pfx _ k k' rec m hkk] at heq
            have := h1 k'
            omega

theorem sortByKey_nil (f : Str → Nat) : sortByKey f [] = [] := rfl

theorem sortByKey_cons (f : Str → Nat) (x : Str) (xs : List Str) :
    sortByKey f (x :: xs) = insortByKey f x (sortByKey f xs) := rfl

theorem insortByKey_nil (f : Str → Nat) (x : Str) : insortByKey f x [] = [x] := rfl

theorem dirWrite_nil (nm : Str) (c : FileContent) : dirWrite [] nm c = [(nm, c)] := rfl

theorem dirWrite_cons (n : Str) (c0 : FileContent) (rest : Dir) (nm : Str)
    (c : FileContent) :
    dirWrite ((n, c0) :: rest) nm c =
      if n = nm then (nm, c) :: rest else (n, c0) :: dirWrite rest nm c := rfl

theorem getLastD_single {α : Type} (x d : α) : ([x] : List α).getLastD d = x := by
  rw [List.getLastD_cons]
  rfl

theorem readShard_single_good (nm : Str) (m : ShardMap) :
    readShard [(nm, .good m)] nm = m := by
  simp [readShard, dirLookup]

theorem sortedShardFiles_nil (pfx : Str) : sortedShardFiles [] pfx = [] := rfl

theorem sortedShardFiles_single_main (pfx : Str) (c : FileContent) :
    sortedShardFiles [(mainName pfx, c)] pfx = [mainName pfx] := by
  rw [sortedShardFiles, matchingFiles, List.filter_cons, if_pos (matches_mainName pfx)]
  rw [List.filter_nil, List.map_cons, List.map_nil, sortByKey_cons, sortByKey_nil,
    insortByKey_nil]

theorem save_coord_fresh (pfx : Str) (k : Key) (rec : Record) (limit : Nat) :
    save_coord [] pfx k rec limit =
      ⟨[(mainName pfx, .good [(k, rec)])], mainName pfx⟩ := by
  rw [save_coord, sortedShardFiles_nil, if_pos rfl]
  rfl

theorem save_coord_main_notfull (pfx : Str) (k : Key) (rec : Record) (limit : Nat)
    (m : ShardMap) (h : m.length < limit) :
    save_coord [(mainName pfx, .good m)] pfx k rec limit =
      ⟨[(mainName pfx, .good (alUpdate m k rec))], mainName pfx⟩ := by
  rw [save_coord, sortedShardFiles_single_main, if_neg (by simp), getLastD_single,
    readShard_single_good, if_neg (by omega), dirWrite_cons, if_pos rfl]

theorem save_coord_main_full (pfx : Str) (k : Key) (rec : Record) (limit : Nat)
    (m : ShardMap) (h : limit ≤ m.length) :
    save_coord [(mainName pfx, .good m)] pfx k rec limit =
      ⟨[(mainName pfx, .good m), (partName pfx 1, .good [(k, rec)])],
        partName pfx 1⟩ := by
  rw [save_coord, sortedShardFiles_single_main, if_neg (by simp), getLastD_single,
    readShard_single_good, if_pos h, nextSuffix_mainName, dirWrite_cons,
    if_neg (fun hh => partName_ne_mainName pfx 1 hh.symm), dirWrite_nil]
  rfl

theorem insertAll_nil (d : Dir) (pfx : Str) (limit : Nat) :
    insertAll d pfx [] limit = d := rfl

theorem insertAll_cons (d : Dir) (pfx : Str) (kv : Key × Record)
    (rest : List (Key × Record)) (limit : Nat) :
    insertAll d pfx (kv :: rest) limit =
      insertAll (save_coord d pfx kv.1 kv.2 limit).dir pfx rest limit := rfl

theorem insertAll_append (d : Dir) (pfx : Str) (a b : List (Key × Record))
    (limit : Nat) :
    insertAll d pfx (a ++ b) limit = insertAll (insertAll d pfx a limit) pfx b limit :=
  List.foldl_append _ _ _ _

theorem insertAll_main (pfx : Str) (limit : Nat) :
    ∀ (kvs : List (Key × Record)) (m : ShardMap),
      (m.map Prod.fst ++ kvs.map Prod.fst).Nodup →
      m.length + kvs.length ≤ limit →
      insertAll [(mainName pfx, .good m)] pfx kvs limit
        = [(mainName pfx, .good (m ++ kvs))] := by
  intro kvs
  induction kvs with
  | nil =>
    intro m _ _
    rw [insertAll_nil, List.append_nil]
  | cons kv rest ih =>
    intro m hnd hlen
    have hfresh : kv.1 ∉ m.map Prod.fst := by
      rw [List.nodup_append] at hnd
      intro hmem
      exact hnd.2.2 hmem (List.mem_cons_self kv.1 (rest.map Prod.fst))
    have hlt : m.length < limit := by
      simp only [List.length_cons] at hlen
      omega
    rw [insertAll_cons, save_coord_main_notfull pfx kv.1 kv.2 limit m hlt]
    rw [alUpdate_of_not_mem m kv.1 kv.2 hfresh]
    have hnd' : ((m ++ [kv]).map Prod.fst ++ rest.map Prod.fst).Nodup := by
      simpa [List.append_assoc] using hnd
    have hlen' : (m ++ [kv]).length + rest.length ≤ limit := by
      simp only [List.length_append, List.length_singleton, List.length_nil,
        List.length_cons] at hlen ⊢
      omega
    have := ih (m ++ [kv]) hnd' hlen'
    rw [this, List.append_assoc]
    rfl

/-! ## Claim theorems -/

/-- C10: Append/contains round-trip: immediately after
`save_coord(base_name, lat, lng, ...)` completes,
`is_saved_across_files(output_dir, basename(base_name), lat, lng)` returns
`True` — the shard file `save_coord` writes always matches the filename
pattern the contains-scan uses, and both sides use the identical canonical
key built from the pair. -/
theorem claim_C10_save_then_contains (d : Dir) (pfx : Str) (k : Key) (rec : Record)
    (limit : Nat) :
    is_saved_across_files (save_coord d pfx k rec limit).dir pfx k = true := by
  rw [save_coord]
  by_cases hemp : sortedShardFiles d pfx = []
  · rw [if_pos hemp]
    dsimp only
    exact is_saved_dirWrite_good d pfx (mainName pfx) _ k (matches_mainName pfx)
      (by rw [alGet_alUpdate_self]; rfl)
  · rw [if_neg hemp]
    by_cases hfull : limit ≤ (readShard d ((sortedShardFiles d pfx).getLastD [])).length
    · rw [if_pos hfull]
      dsimp only
      exact is_saved_dirWrite_good d pfx _ _ k (matches_partName pfx _)
        (by rw [alGet_alUpdate_self]; rfl)
    · rw [if_neg hfull]
      dsimp only
      exact is_saved_dirWrite_good d pfx _ _ k (matches_of_sorted_getLast d pfx hemp)
        (by rw [alGet_alUpdate_self]; rfl)

/-- C3: Shard rollover: the entry-count limit is checked before insertion, so
starting from a region with no shard files, inserting `limit + 1` records
with distinct coordinate keys produces exactly two shard files: the
unsuffixed one holding exactly `limit` entries (the first `limit` records in
order) and `base_name-1.json` holding exactly the remaining one. -/
theorem claim_C3_shard_rollover (pfx : Str) (limit : Nat)
    (kvs : List (Key × Record)) (hlen : kvs.length = limit + 1)
    (hnd : (kvs.map Prod.fst).Nodup) (hpos : 1 ≤ limit) :
    insertAll [] pfx kvs limit
      = [(mainName pfx, .good (kvs.take limit)),
         (partName pfx 1, .good (kvs.drop limit))]
    ∧ (kvs.take limit).length = limit ∧ (kvs.drop limit).length = 1 := by
  refine ⟨?_, ?_, ?_⟩
  · obtain ⟨kv, rest, rfl⟩ : ∃ kv rest, kvs = kv :: rest := by
      cases kvs with
      | nil => simp at hlen
      | cons a b => exact ⟨a, b, rfl⟩
    have hrlen : rest.length = limit := by
      simp only [List.length_cons] at hlen
      omega
    have hrne : rest ≠ [] := by
      intro h
      rw [h] at hrlen
      simp at hrlen
      omega
    obtain ⟨mid, lkv, rfl⟩ : ∃ mid lkv, rest = mid ++ [lkv] :=
      ⟨rest.dropLast, rest.getLast hrne, (List.dropLast_append_getLast hrne).symm⟩
    have hmidlen : mid.length = limit - 1 := by
      simp only [List.length_append, List.length_singleton] at hrlen
      omega
    rw [insertAll_cons, save_coord_fresh]
    dsimp only
    rw [insertAll_append]
    have hnodup1 : (([((kv.1, kv.2) : Key × Record)].map Prod.fst)
        ++ mid.map Prod.fst).Nodup := by
      simp only [List.map_cons, List.map_nil, List.singleton_append]
      have hsub : (kv.1 :: mid.map Prod.fst).Sublist
          (kv.1 :: (mid ++ [lkv]).map Prod.fst) := by
        apply List.Sublist.cons₂
        rw [List.map_append]
        exact List.sublist_append_left _ _
      exact List.Nodup.sublist hsub (by simpa using hnd)
    have hlen1 : ([((kv.1, kv.2) : Key × Record)]).length + mid.length ≤ limit := by
      simp only [List.length_singleton, hmidlen]
      omega
    have h1 := insertAll_main pfx limit mid [(kv.1, kv.2)] hnodup1 hlen1
    rw [h1]
    have hfull : limit ≤ (([((kv.1, kv.2) : Key × Record)]) ++ mid).length := by
      simp only [List.length_append, List.length_singleton, hmidlen]
      omega
    rw [show ([lkv] : List (Key × Record)) = lkv :: [] from rfl, insertAll_cons,
      save_coord_main_full pfx lkv.1 lkv.2 limit _ hfull, insertAll_nil]
    dsimp only
    have hlim : limit = mid.length + 1 := by omega
    have htake : (kv :: (mid ++ [lkv])).take limit = kv :: mid := by
      rw [hlim, List.take_succ_cons, List.take_left]
    have hdrop : (kv :: (mid ++ [lkv])).drop limit = [lkv] := by
      rw [hlim, List.drop_succ_cons, List.drop_left]
    rw [htake, hdrop]
    rfl
  · rw [List.length_take, hlen]
    omega
  · rw [List.length_drop, hlen]
    omega

/-- C7 counterexample: for a file prefix containing a dot — reachable, since
the prefix is `f"{city.lower()}_panoramic_coords"` and a city name may
contain a dot — `fname.split(".")[0]` truncates before the `-N` suffix, so a
suffixed shard's sort key degenerates to `999999` instead of its numeric
suffix, suffixed shards keep listing order instead of sorting by suffix
ascending (here `-2` stays before `-1`), and a rollover from the full shard
`-5` creates `-1` instead of `-6` — refuting the claim's ordering and
suffix-plus-one clauses as stated. -/
theorem claim_C7_counterexample :
    file_sort_key dotPfx (partName dotPfx 2) = 999999
    ∧ file_sort_key dotPfx (partName dotPfx 1) = 999999
    ∧ sortByKey (file_sort_key dotPfx) [partName dotPfx 2, partName dotPfx 1]
        = [partName dotPfx 2, partName dotPfx 1]
    ∧ (save_coord [(partName dotPfx 5, .good [((0, 0), sampleRec)])] dotPfx
        (0, 1) sampleRec 1).file = partName dotPfx 1
    ∧ partName dotPfx 1 ≠ partName dotPfx 6 := by
  refine ⟨rfl, rfl, by decide, by decide, by decide⟩

/-- C7 (amended): provided the file prefix contains no `'.'` character (so
that `fname.split(".")[0]` keeps the numeric suffix), `save_coord` orders the
region's existing shard files so that the unsuffixed shard sorts first
(key `0`) and suffixed shards sort by their numeric suffix ascending; it
writes into the highest-ordered shard, and when that shard is at or above the
limit it creates a new shard — holding only the just-inserted record — whose
suffix is `1` when the highest shard was the unsuffixed one, and the current
numeric suffix plus one otherwise. -/
theorem claim_C7_sort_and_rollover (pfx : Str) (hdot : ('.' : Char) ∉ pfx) :
    (file_sort_key pfx (mainName pfx) = 0
      ∧ ∀ n : Nat, file_sort_key pfx (partName pfx n) = n)
    ∧ (∀ fs : List Str,
        List.Perm (sortByKey (file_sort_key pfx) fs) fs
        ∧ (sortByKey (file_sort_key pfx) fs).Pairwise
            fun a b => file_sort_key pfx a ≤ file_sort_key pfx b)
    ∧ (∀ (d : Dir) (k : Key) (rec : Record) (limit : Nat),
        sortedShardFiles d pfx ≠ [] →
        ((readShard d ((sortedShardFiles d pfx).getLastD [])).length < limit →
            (save_coord d pfx k rec limit).file = (sortedShardFiles d pfx).getLastD [])
        ∧ (limit ≤ (readShard d ((sortedShardFiles d pfx).getLastD [])).length →
            ((sortedShardFiles d pfx).getLastD [] = mainName pfx →
              (save_coord d pfx k rec limit).file = partName pfx 1
              ∧ dirLookup (save_coord d pfx k rec limit).dir (partName pfx 1)
                  = some (.good [(k, rec)]))
            ∧ ∀ m : Nat, (sortedShardFiles d pfx).getLastD [] = partName pfx m →
                (save_coord d pfx k rec limit).file = partName pfx (m + 1))) := by
  refine ⟨⟨file_sort_key_mainName pfx, fun n => file_sort_key_partName pfx n hdot⟩,
    fun fs => ⟨sortByKey_perm _ fs, sortByKey_pairwise _ fs⟩, ?_⟩
  intro d k rec limit hne
  constructor
  · intro hsmall
    rw [save_coord, if_neg hne, if_neg (by omega)]
  · intro hfull
    constructor
    · intro hmain
      rw [save_coord, if_neg hne, if_pos hfull, hmain, nextSuffix_mainName]
      exact ⟨rfl, dirLookup_dirWrite_self d _ _⟩
    · intro m hpart
      rw [save_coord, if_neg hne, if_pos hfull, hpart, nextSuffix_partName pfx m hdot]

/-- C5 counterexample: for a non-2xx response (a concrete HTTP 404), the date
component of `fetch_pano_metadata`'s returned triple is `None` — it is not an
"Unknown"-equivalent string (not `Some` of any string). -/
theorem claim_C5_counterexample :
    (fetch_pano_metadata 0 (.response 404 ⟨none, none, none, none⟩)).1
        = (none, none, none)
    ∧ (fetch_pano_metadata 0 (.response 404 ⟨none, none, none, none⟩)).1.2.2.isSome
        = false := by
  exact ⟨rfl, rfl⟩

/-- C5 (amended): when the metadata service responds with a non-2xx HTTP
status or with a 2xx body whose status field is not `"OK"`,
`fetch_pano_metadata` returns the triple `(None, None, None)` — the date
component is `None`, not an "Unknown" string — and it raises no exception
for such ordinary API-level failures (the mapping is total; a caught
transport error yields the same triple). -/
theorem fetch_pano_metadata_response (counter code : Nat) (body : ApiBody) :
    fetch_pano_metadata counter (.response code body) =
      if code = 200 then
        if body.status = some "OK" then
          ((body.pano_id, body.location, some (body.date.getD "Unknown")),
            update_total_request_count counter)
        else ((none, none, none), update_total_request_count counter)
      else ((none, none, none), update_total_request_count counter) := rfl

theorem claim_C5_failure_yields_none_triple (counter : Nat) (o : FetchOutcome)
    (h : apiFailure o) :
    (fetch_pano_metadata counter o).1 = (none, none, none) := by
  cases o with
  | transportError => rfl
  | response code body =>
    have h' : ¬(200 ≤ code ∧ code ≤ 299) ∨ body.status ≠ some "OK" := h
    rw [fetch_pano_metadata_response]
    by_cases hc : code = 200
    · subst hc
      rcases h' with h' | h'
      · exact absurd ⟨by omega, by omega⟩ h'
      · rw [if_pos rfl, if_neg h']
    · rw [if_neg hc]

/-- C5 witness: the amended failure behaviour at the concrete 404 response. -/
theorem claim_C5_failure_yields_none_triple_witness :
    (fetch_pano_metadata 3 (.response 404 ⟨some "ZERO_RESULTS", none, none, none⟩)).1
      = (none, none, none) :=
  claim_C5_failure_yields_none_triple 3 _ (Or.inl (by omega))

/-- C6 counterexample: a call whose `session.get` raises a transport error
does not increment the persisted request counter (`update_total_request_count`
is only reached after a response arrives), contradicting "increments … by
exactly one, regardless of the call's outcome". -/
theorem claim_C6_counterexample :
    (fetch_pano_metadata 7 .transportError).2 ≠ 7 + 1 := by
  intro h
  simp [fetch_pano_metadata] at h

/-- C6 (amended): a call of `fetch_pano_metadata` increments the persisted
request counter by exactly one whenever `session.get` returns a response
(success, non-2xx, or non-"OK" body alike), via the unlocked read-modify-write
`update_total_request_count`; on a transport error the counter is unchanged;
in all cases the counter never decreases. -/
theorem claim_C6_counter_increment (counter : Nat) (o : FetchOutcome) :
    (o = .transportError → (fetch_pano_metadata counter o).2 = counter)
    ∧ (∀ code body, o = .response code body →
        (fetch_pano_metadata counter o).2
          = update_total_request_count counter
        ∧ (fetch_pano_metadata counter o).2 = counter + 1)
    ∧ counter ≤ (fetch_pano_metadata counter o).2 := by
  cases o with
  | transportError =>
    refine ⟨fun _ => rfl, ?_, le_refl _⟩
    intro code body h
    cases h
  | response code body =>
    have hcnt : (fetch_pano_metadata counter (.response code body)).2 = counter + 1 := by
      rw [fetch_pano_metadata_response]
      by_cases hc : code = 200
      · rw [if_pos hc]
        by_cases hs : body.status = some "OK"
        · rw [if_pos hs]
          rfl
        · rw [if_neg hs]
          rfl
      · rw [if_neg hc]
        rfl
    refine ⟨?_, ?_, ?_⟩
    · intro h
      cases h
    · intro code' body' _
      exact ⟨by rw [hcnt]; rfl, hcnt⟩
    · rw [hcnt]
      omega

/-- C6 witness: at a concrete 200/"OK" response the counter advances from 5
to 6; at a concrete transport error it stays at 5, and never decreases. -/
theorem claim_C6_counter_increment_witness :
    (fetch_pano_metadata 5 (.response 200 ⟨some "OK", some "p", none, none⟩)).2 = 5 + 1
    ∧ (fetch_pano_metadata 5 .transportError).2 = 5
    ∧ 5 ≤ (fetch_pano_metadata 5 .transportError).2 :=
  ⟨((claim_C6_counter_increment 5 (.response 200 ⟨some "OK", some "p", none, none⟩)).2.1
      200 ⟨some "OK", some "p", none, none⟩ rfl).2,
    (claim_C6_counter_increment 5 .transportError).1 rfl,
    (claim_C6_counter_increment 5 .transportError).2.2⟩

theorem load_progress_good (m : List (String × Key)) (city : String) :
    load_progress (.good m) city =
      match alGet m city with
      | some c => (some c.1, some c.2)
      | none => (none, none) := rfl

/-- C8: `save_progress(region, coordinate)` reads the full progress mapping,
replaces only the entry for that region, and rewrites the file: for every
other region the stored entry after the call equals the entry before; a
missing or unparseable progress file is treated as an empty mapping rather
than an error (saving over it behaves exactly like saving over `{}`). -/
theorem claim_C8_progress_frame (pf : ProgressFile) (city other : String)
    (lat lng : ℚ) (h : other ≠ city) :
    load_progress (save_progress pf city lat lng) other = load_progress pf other
    ∧ save_progress .missing city lat lng = save_progress (.good []) city lat lng
    ∧ save_progress .bad city lat lng = save_progress (.good []) city lat lng := by
  refine ⟨?_, rfl, rfl⟩
  cases pf with
  | good m =>
    rw [save_progress, load_progress_good, load_progress_good,
      show parseProgress (.good m) = m from rfl,
      alGet_alUpdate_ne m city other (lat, lng) h]
  | missing =>
    rw [save_progress, load_progress_good,
      show parseProgress .missing = [] from rfl,
      alGet_alUpdate_ne [] city other (lat, lng) h]
    rfl
  | bad =>
    rw [save_progress, load_progress_good,
      show parseProgress .bad = [] from rfl,
      alGet_alUpdate_ne [] city other (lat, lng) h]
    rfl

/-- C8 witness: saving region "a" leaves region "b"'s stored checkpoint
untouched, over a concrete progress file. -/
theorem claim_C8_progress_frame_witness :
    load_progress (save_progress (.good [("b", (1, 2))]) "a" 3 4) "b"
        = load_progress (.good [("b", (1, 2))]) "b"
    ∧ save_progress .missing "a" 3 4 = save_progress (.good []) "a" 3 4 := by
  have h := claim_C8_progress_frame (.good [("b", (1, 2))]) "a" "b" 3 4 (by decide)
  exact ⟨h.1, h.2.1⟩

/-- C9 counterexample: a catalog entry whose name matches the requested name
case-insensitively but whose nested sub-region list is explicitly empty makes
`get_city_coordinates` fail with an index error (`[{}][0]` never happens:
`regions` is present and `[][0]` raises), so an error is raised even though a
catalog entry matches — refuting "raises an error exactly when no catalog
entry matches". -/
theorem claim_C9_counterexample :
    toLowerStr emptyRegionsEntry.city = toLowerStr "X".toList
    ∧ get_city_coordinates [emptyRegionsEntry] "X".toList
        = .error "list index out of range".toList := ⟨rfl, rfl⟩

/-- C9 (amended): region resolution returns the bounds of the first catalog
entry whose name matches case-insensitively, with the first nested sub-region
entry's fields overriding the top-level bounds, and — provided no catalog
entry carries an explicitly empty sub-region list, which would raise an index
error despite the match — it raises an error exactly when no entry matches. -/
theorem claim_C9_region_resolution (cities : List CityEntry) (name : Str)
    (hwf : ∀ c ∈ cities, c.regions ≠ some []) :
    ((∀ c ∈ cities, toLowerStr c.city ≠ toLowerStr name)
        ↔ get_city_coordinates cities name = .error (cityNotFound name))
    ∧ (∀ c, cities.find? (fun e => toLowerStr e.city = toLowerStr name) = some c →
        get_city_coordinates cities name = .ok (entryBounds c)) := by
  induction cities with
  | nil =>
    refine ⟨⟨fun _ => rfl, fun _ c hc => absurd hc (List.not_mem_nil c)⟩, ?_⟩
    intro c hc
    rw [List.find?_nil] at hc
    cases hc
  | cons e rest ih =>
    have ihwf : ∀ c ∈ rest, c.regions ≠ some [] :=
      fun c hc => hwf c (List.mem_cons_of_mem e hc)
    obtain ⟨ih1, ih2⟩ := ih ihwf
    by_cases hm : toLowerStr e.city = toLowerStr name
    · have hok : get_city_coordinates (e :: rest) name = .ok (entryBounds e) := by
        rw [get_city_coordinates, if_pos hm]
        have hne : e.regions ≠ some [] := hwf e (List.mem_cons_self e rest)
        cases hr : e.regions with
        | none =>
          rw [entryBounds, hr]
          rfl
        | some l =>
          cases l with
          | nil => exact absurd hr hne
          | cons r t =>
            rw [entryBounds, hr]
            rfl
      constructor
      · constructor
        · intro habs
          exact absurd hm (habs e (List.mem_cons_self e rest))
        · intro herr
          rw [hok] at herr
          cases herr
      · intro c hc
        rw [List.find?_cons_of_pos _ (by simpa using hm)] at hc
        cases hc
        exact hok
    · have hstep : get_city_coordinates (e :: rest) name
          = get_city_coordinates rest name := by
        rw [get_city_coordinates, if_neg hm]
      constructor
      · rw [hstep, ← ih1]
        constructor
        · intro habs c hc
          exact habs c (List.mem_cons_of_mem e hc)
        · intro hrest c hc
          rcases List.mem_cons.mp hc with hc | hc
          · rw [hc]
            exact hm
          · exact hrest c hc
      · intro c hc
        rw [List.find?_cons_of_neg _ (by simpa using hm)] at hc
        rw [hstep]
        exact ih2 c hc

/-- C9 witness: over the concrete two-entry catalog, `"bar"` resolves to the
second entry with the sub-region's `min_latitude = 9` overriding the
top-level `5`, and an unknown name yields exactly the not-found error. -/
theorem claim_C9_region_resolution_witness :
    get_city_coordinates sampleCatalog "bar".toList = .ok (9, 6, 7, 8)
    ∧ get_city_coordinates sampleCatalog "Nope".toList
        = .error (cityNotFound "Nope".toList) := by
  constructor
  · exact (claim_C9_region_resolution sampleCatalog "bar".toList (by decide)).2
      ⟨"Bar".toList, 5, 6, 7, 8, some [⟨some 9, none, none, none⟩]⟩ (by rfl)
  · exact (claim_C9_region_resolution sampleCatalog "Nope".toList (by decide)).1.mp
      (by decide)

/-- C4: the resume point is computed with Python truthiness
(`last_lat if last_lat else min_lat`), so a stored checkpoint whose latitude
and longitude are both `0.0` is ignored and the sweep restarts from the
region's minimum corner: with checkpoint `(0, 0)` stored for region `"c"`
and minimum corner `(-1, -1)`, the resume point is `(-1, -1) ≠ (0, 0)`,
contradicting "a fresh sweep starts from C". -/
theorem claim_C4_zero_checkpoint_ignored :
    load_progress (.good [("c", ((0 : ℚ), (0 : ℚ)))]) "c" = (some 0, some 0)
    ∧ resumeStart (.good [("c", ((0 : ℚ), (0 : ℚ)))]) "c" (-1) (-1) = (-1, -1)
    ∧ ((-1, -1) : ℚ × ℚ) ≠ ((0, 0) : ℚ × ℚ) := by
  refine ⟨rfl, rfl, by decide⟩

/-- C1 counterexample: at a coordinate already present in a shard
(`sampleDirSaved` holds `(0, 0)`), the inner-loop body of
`fetch_city_panoramas` skips everything — `save_progress` included, because
it is indented inside the `if not is_saved_across_files(...)` block — so
after this sweep step the saved checkpoint is *not* the last coordinate
attempted. -/
theorem claim_C1_counterexample :
    is_saved_across_files sampleState.dir samplePfx (0, 0) = true
    ∧ processCoord offlineEnv "c" samplePfx 500 sampleState (0, 0) = sampleState
    ∧ load_progress
        (processCoord offlineEnv "c" samplePfx 500 sampleState (0, 0)).progress "c"
        ≠ (some 0, some 0) := by
  refine ⟨rfl, rfl, by decide⟩

/-- C1 (amended): the sweep body calls `Progress Store.save` with the current
coordinate exactly when that coordinate was *not* already present in the
Shard Store — then regardless of whether a panorama was found or a record
written — and leaves the checkpoint untouched when the coordinate is skipped
as already saved; so after N sweep steps the saved checkpoint equals the last
attempted coordinate that was not skipped, not the last coordinate attempted. -/
theorem claim_C1_progress_update (env : Key → FetchOutcome) (city : String)
    (pfx : Str) (limit : Nat) (s : SweepState) (c : Key) :
    (is_saved_across_files s.dir pfx c = false →
      load_progress (processCoord env city pfx limit s c).progress city
        = (some c.1, some c.2))
    ∧ (is_saved_across_files s.dir pfx c = true →
      (processCoord env city pfx limit s c).progress = s.progress) := by
  constructor
  · intro h
    rw [processCoord, if_neg (by simp [h])]
    dsimp only
    rw [save_progress, load_progress_good, alGet_alUpdate_self]
  · intro h
    rw [processCoord, if_pos h]

/-- C1 witness: on a fresh state the checkpoint after the step is the
processed coordinate; on a state that already contains the coordinate the
checkpoint is unchanged. -/
theorem claim_C1_progress_update_witness :
    load_progress (processCoord okEnv "c" samplePfx 500 freshState (0, 0)).progress "c"
        = (some 0, some 0)
    ∧ (processCoord offlineEnv "c" samplePfx 500 sampleState (0, 0)).progress
        = sampleState.progress :=
  ⟨(claim_C1_progress_update okEnv "c" samplePfx 500 freshState (0, 0)).1 rfl,
    (claim_C1_progress_update offlineEnv "c" samplePfx 500 sampleState (0, 0)).2 rfl⟩

/-- C2: for a coordinate whose canonical key is already present in some shard
file of the region, the sweep step performs zero external fetch calls for it
and writes no entry — the whole sweep state (directory, progress, counter,
call trace) is unchanged; and every sweep step preserves the invariant that a
coordinate key occurs in at most one shard's mapping of the region. -/
theorem claim_C2_dedup (env : Key → FetchOutcome) (city : String) (pfx : Str)
    (limit : Nat) (s : SweepState) (c : Key) :
    (is_saved_across_files s.dir pfx c = true →
      processCoord env city pfx limit s c = s)
    ∧ ((∀ k, shardCount s.dir pfx k ≤ 1) →
      ∀ k, shardCount (processCoord env city pfx limit s c).dir pfx k ≤ 1) := by
  constructor
  · intro h
    rw [processCoord, if_pos h]
  · intro hinv k
    by_cases h : is_saved_across_files s.dir pfx c
    · rw [processCoord, if_pos h]
      exact hinv k
    · have hfalse : is_saved_across_files s.dir pfx c = false := by simpa using h
      rw [processCoord, if_neg (by simp [hfalse])]
      dsimp only
      cases hfr : (fetch_pano_metadata s.counter (env c)).1.1 with
      | none => exact hinv k
      | some pid =>
        dsimp only
        by_cases hpid : pid = ""
        · rw [if_pos hpid]
          exact hinv k
        · rw [if_neg hpid]
          exact save_coord_at_most_one s.dir pfx c
            (mkRecord c pid (fetch_pano_metadata s.counter (env c)).1.2.2) limit
            hfalse hinv k

/-- C2 witness: at the concrete already-saved coordinate the step is a
no-op, and the at-most-one-shard invariant holds after the step. -/
theorem claim_C2_dedup_witness :
    processCoord offlineEnv "c" samplePfx 500 sampleState (0, 0) = sampleState
    ∧ shardCount (processCoord offlineEnv "c" samplePfx 500 sampleState (0, 0)).dir
        samplePfx (0, 0) ≤ 1 :=
  ⟨(claim_C2_dedup offlineEnv "c" samplePfx 500 sampleState (0, 0)).1 rfl,
    (claim_C2_dedup offlineEnv "c" samplePfx 500 sampleState (0, 0)).2
      (fun _ => le_trans (List.length_filter_le _ _) (by decide)) (0, 0)⟩

/-- C3 witness: with limit 1, inserting two records with distinct keys into a
fresh region yields the unsuffixed shard with 1 entry and `-1` with 1. -/
theorem claim_C3_shard_rollover_witness :
    insertAll [] samplePfx [((0, 0), sampleRec), ((0, 1), sampleRec)] 1
        = [(mainName samplePfx,
            .good ([((0, 0), sampleRec), ((0, 1), sampleRec)].take 1)),
           (partName samplePfx 1,
            .good ([((0, 0), sampleRec), ((0, 1), sampleRec)].drop 1))]
    ∧ ([((0, 0), sampleRec), ((0, 1), sampleRec)].take 1).length = 1
    ∧ ([((0, 0), sampleRec), ((0, 1), sampleRec)].drop 1).length = 1 :=
  claim_C3_shard_rollover samplePfx 1 [((0, 0), sampleRec), ((0, 1), sampleRec)]
    rfl (by decide) (by decide)

/-- C7 witness: concrete sort keys, a concrete sort, and a concrete rollover
from the full unsuffixed shard to `-1`. -/
theorem claim_C7_sort_and_rollover_witness :
    file_sort_key samplePfx (mainName samplePfx) = 0
    ∧ file_sort_key samplePfx (partName samplePfx 3) = 3
    ∧ List.Perm
        (sortByKey (file_sort_key samplePfx) [partName samplePfx 2, mainName samplePfx])
        [partName samplePfx 2, mainName samplePfx]
    ∧ (save_coord sampleDirSaved samplePfx (5, 5) sampleRec 1).file
        = partName samplePfx 1 := by
  have h := claim_C7_sort_and_rollover samplePfx (by decide)
  refine ⟨h.1.1, h.1.2 3,
    (h.2.1 [partName samplePfx 2, mainName samplePfx]).1, ?_⟩
  have h3 := h.2.2 sampleDirSaved (5, 5) sampleRec 1 (by decide)
  exact ((h3.2 (by decide)).1 (by decide)).1

end PanoScan
